import Mathlib

/-!
Verification of the "Focus" productivity app (habit tracker, Eisenhower task
matrix, analytics dashboard) against its natural-language specification.

Shallow embedding conventions:
* ISO `yyyy-MM-dd` date strings are in bijection with calendar days; we model a
  day as an `Int` (epoch day number, 1970-01-01 = day 0, a Thursday).  The
  JavaScript object `completions : { [date: string]: boolean }` is modelled as
  an insertion-ordered association list `List (Int × Bool)` with unique keys:
  property assignment updates an existing key in place or appends a new one,
  which is exactly JavaScript object semantics for non-integer-like keys.
* JavaScript numbers are modelled as exact integers / rationals; `Math.round`
  becomes `jsRound` (round half toward positive infinity).
* A truthiness test `habit.completions[dateStr]` on a possibly-absent key is
  modelled as `(getKey l d).getD false`.
-/

namespace ProdTracker

/-- JavaScript `String.prototype.trim()`: strip leading and trailing
whitespace.  (Defined over the character list so that it evaluates by
`decide`.) -/
def jsTrim (s : String) : String :=
  String.mk (((s.toList.dropWhile Char.isWhitespace).reverse.dropWhile
    Char.isWhitespace).reverse)

/-- Frequency enum of the validated `HabitTracker.tsx` variant. -/
inductive Frequency
  | daily
  | weekly
  | monthly
  | custom
deriving DecidableEq, Repr

/-- Custom-frequency subtype enum. -/
inductive CustomType
  | timeBased
  | countBased
deriving DecidableEq, Repr

/-- Habit status enum. -/
inductive Status
  | active
  | inactive
deriving DecidableEq, Repr

/-- The `Habit` record of `HabitTracker.tsx` (validated variant, lines 548-570).
`completions` maps a day (ISO date string, modelled as epoch day) to a boolean. -/
structure Habit where
  id : String
  name : String
  frequency : Frequency
  customType : Option CustomType
  minutesPerDay : Option Int
  countPerDay : Option Int
  daysPerWeek : Option Int
  leavesAllowedPerMonth : Int
  status : Status
  completions : List (Int × Bool)
  createdAt : String
deriving DecidableEq, Repr

/-- Lookup of a key in a JavaScript object modelled as an association list
(`obj[k]`, `undefined` when absent). -/
def getKey : List (Int × Bool) → Int → Option Bool
  | [], _ => none
  | (k, v) :: rest, d => if k = d then some v else getKey rest d

/-- Property assignment `obj[k] = v` on a JavaScript object: replaces the value
of an existing key in place, otherwise appends the key at the end. -/
def setKey : List (Int × Bool) → Int → Bool → List (Int × Bool)
  | [], d, v => [(d, v)]
  | (k, w) :: rest, d, v => if k = d then (k, v) :: rest else (k, w) :: setKey rest d v

/-- JavaScript truthiness of `habit.completions[dateStr]` (absent key is
`undefined`, hence falsy). -/
def completedOn (h : Habit) (d : Int) : Bool :=
  (getKey h.completions d).getD false

/-- The per-habit callback of `toggleHabit` (`HabitTracker.tsx` lines 744-751):
for the habit whose id matches, copy the completions object and flip today's
entry (`newCompletions[today] = !newCompletions[today]`); any other habit is
returned unchanged. -/
def toggleOne (today : Int) (id : String) (h : Habit) : Habit :=
  if h.id = id then
    { h with completions := setKey h.completions today (!(getKey h.completions today).getD false) }
  else h

/-- Function `toggleHabit` of `HabitTracker.tsx` lines 741-753: map the collection
through the toggle callback.  `today` is the current day (from
`new Date().toISOString().split("T")[0]`). -/
def toggleHabit (habits : List Habit) (today : Int) (id : String) : List Habit :=
  habits.map (toggleOne today id)

/-- The call made by the `HabitDetailView` calendar (`part_001` lines 244-247):
`onToggleCompletion(habit.id, dateStr)`.  The bound handler is `toggleHabit`,
whose parameter list is `(id: string)` only, so JavaScript silently drops the
second argument: the `date` parameter below is unused and today's entry is the
one toggled. -/
def toggleCompletion (habits : List Habit) (today : Int) (id : String) (_date : Int) :
    List Habit :=
  toggleHabit habits today id

/-! ### Analytics aggregator, local-storage variant (`part_003`, `useAnalytics`) -/

/-- Function `eachDayOfInterval` of date-fns: every day from `start` to `stop`
inclusive, in chronological order. -/
def eachDayOfInterval (start stop : Int) : List Int :=
  (List.range (stop - start + 1).toNat).map fun i => start + (i : Int)

/-- JavaScript `Math.round` on an exact rational: round half toward positive
infinity. -/
def jsRound (q : ℚ) : Int :=
  ⌊q + 1 / 2⌋

/-- The accumulation loop of `part_003` lines 55-72: for each day of the range
and each habit, bump `totalPossibleCompletions`, and bump `totalCompletions`
when `habit.completions[dateStr]` is truthy.  Returns
`(totalPossibleCompletions, totalCompletions)`. -/
def totals003 (habits : List Habit) (days : List Int) : Nat × Nat :=
  days.foldl
    (fun acc day =>
      habits.foldl
        (fun acc2 h => (acc2.1 + 1, acc2.2 + if completedOn h day then 1 else 0))
        acc)
    (0, 0)

/-- Field `completionRate` of `part_003` lines 74-76:
`Math.round((totalCompletions / totalPossibleCompletions) * 100)`, guarded to
0 when there are no possible completions. -/
def completionRate003 (habits : List Habit) (days : List Int) : Int :=
  let t := totals003 habits days
  if 0 < t.1 then jsRound (((t.2 : ℚ) / (t.1 : ℚ)) * 100) else 0

/-- State of the streak loop of `part_003` lines 81-101: `currentStreak`,
`bestStreak`, `tempStreak`. -/
structure StreakState where
  curr : Nat
  best : Nat
  temp : Nat
deriving DecidableEq, Repr

/-- One iteration of the streak loop (`part_003` lines 86-101) at loop index
`i`: the scanned day is `subDays(today, i)`, `anyCompleted` is
`habits.some(h => h.completions[dateStr])`; `tempStreak` extends or folds into
`bestStreak`, and `currentStreak` grows while contiguous from today. -/
def streakStep (habits : List Habit) (today : Int) (s : StreakState) (i : Nat) :
    StreakState :=
  let d : Int := today - (i : Int)
  let any := habits.any fun h => completedOn h d
  let s1 : StreakState :=
    if any then { s with temp := s.temp + 1 }
    else { s with best := max s.best s.temp, temp := 0 }
  { s1 with curr := if i = s.curr ∧ any then s.curr + 1 else s.curr }

/-- The full 365-iteration streak scan of `part_003` (`for (let i = 0; i < 365; i++)`). -/
def streaks003 (habits : List Habit) (today : Int) : StreakState :=
  (List.range 365).foldl (streakStep habits today) ⟨0, 0, 0⟩

/-- Field `bestStreak` of `part_003`: the loop result followed by the final
`bestStreak = Math.max(bestStreak, tempStreak)` on line 102. -/
def bestStreak003 (habits : List Habit) (today : Int) : Nat :=
  max (streaks003 habits today).best (streaks003 habits today).temp

/-- Field `currentStreak` of `part_003`. -/
def currentStreak003 (habits : List Habit) (today : Int) : Nat :=
  (streaks003 habits today).curr

/-- The seven weekday keys of the `dayCounts` record of `part_003` line 120-122,
in insertion order. -/
def weekdayNames : List String :=
  ["Mon", "Tue", "Wed", "Thu", "Fri", "Sat", "Sun"]

/-- Index (0 = Mon .. 6 = Sun) of the weekday of an epoch day; day 0
(1970-01-01) was a Thursday, index 3. -/
def weekdayIdx (d : Int) : Nat :=
  ((d + 3) % 7).toNat

/-- Statement `dayCounts[dayName]++` on the seven-element tally. -/
def bump (cs : List Nat) (i : Nat) : List Nat :=
  cs.set i (cs.getD i 0 + 1)

/-- The tally loop of `part_003` lines 124-133: for every habit and every key
of its completions object whose value is truthy, bump the count of that day's
weekday.  (Every `format(_, 'EEE')` result is one of the seven keys, so the
`!== undefined` guard always passes.) -/
def dayCounts (habits : List Habit) : List Nat :=
  habits.foldl
    (fun cs h =>
      h.completions.foldl
        (fun cs2 kv => if kv.2 then bump cs2 (weekdayIdx kv.1) else cs2)
        cs)
    (List.replicate 7 0)

/-- Expression `Object.entries(dayCounts)`: the seven `(weekday, count)` pairs in the
record's insertion order Mon..Sun. -/
def mpdEntries (habits : List Habit) : List (String × Nat) :=
  weekdayNames.zip (dayCounts habits)

/-- The `reduce((a, b) => a[1] > b[1] ? a : b)` of `part_003` lines 135-137:
fold over the tail with the head as initial accumulator, keeping the incumbent
only on a strictly greater count. -/
def reducePick : List (String × Nat) → String × Nat
  | [] => ("", 0)
  | x :: rest => rest.foldl (fun a b => if a.2 > b.2 then a else b) x

/-- Field `mostProductiveDay` of `part_003`. -/
def mostProductiveDay003 (habits : List Habit) : String :=
  (reducePick (mpdEntries habits)).1

/-- The fields of the `AnalyticsData` record of `part_003` that the
specification's claims are about (`weeklyProgress`, `dailyDetails` and the
task fields are not modelled). -/
structure Analytics003 where
  completionRate : Int
  currentStreak : Nat
  bestStreak : Nat
  mostProductiveDay : String
  totalHabits : Nat
deriving DecidableEq, Repr

/-- The aggregator of `part_003`, as a pure function of the habit snapshot, the
resolved day range and today's date. -/
def analytics003 (habits : List Habit) (days : List Int) (today : Int) : Analytics003 where
  completionRate := completionRate003 habits days
  currentStreak := currentStreak003 habits today
  bestStreak := bestStreak003 habits today
  mostProductiveDay := mostProductiveDay003 habits
  totalHabits := habits.length

/-! ### Analytics aggregator, remote variant (second half of `DateRangePicker.tsx`) -/

/-- A row of the remote `habits` table (already filtered by `archived = false`):
`completion_dates` is an array of ISO date strings. -/
structure RemoteHabit where
  name : String
  completionDates : List Int
deriving DecidableEq, Repr

/-- Output fields of the remote `useAnalytics`. -/
structure RemoteAnalytics where
  bestStreak : Nat
  completionRate : Int
  mostProductiveDay : String
deriving DecidableEq, Repr

/-- Value `dailyCompletions[dateStr]` of the remote variant: how many habits list the
day among their completion dates. -/
def remoteDailyCompletions (habits : List RemoteHabit) (d : Int) : Nat :=
  habits.countP fun h => h.completionDates.contains d

/-- The remote best-streak loop (`DateRangePicker.tsx` lines 226-241): scan the
requested days in order, extending the running streak on days where every habit
completed (and the habit count is positive), resetting otherwise. -/
def remoteBestStreak (habits : List RemoteHabit) (days : List Int) : Nat :=
  (days.foldl
    (fun (s : Nat × Nat) d =>
      if remoteDailyCompletions habits d = habits.length ∧ 0 < habits.length then
        (max s.1 (s.2 + 1), s.2 + 1)
      else (s.1, 0))
    (0, 0)).1

/-- The remote completion rate (lines 196-199). -/
def remoteCompletionRate (habits : List RemoteHabit) (days : List Int) : Int :=
  let possible := days.length * habits.length
  let completed := (days.map fun d => remoteDailyCompletions habits d).sum
  if 0 < possible then jsRound (((completed : ℚ) / (possible : ℚ)) * 100) else 0

/-- Full weekday names produced by `format(date, "EEEE")`, indexed like
`weekdayIdx`. -/
def fullWeekdayNames : List String :=
  ["Monday", "Tuesday", "Wednesday", "Thursday", "Friday", "Saturday", "Sunday"]

/-- Insertion order of the `dayOfWeekCounts` record keys: weekday indices in
order of first occurrence while scanning the requested days. -/
def firstOccurrenceOrder (l : List Nat) : List Nat :=
  l.foldl (fun acc w => if acc.contains w then acc else acc ++ [w]) []

/-- The remote most-productive-day scan (lines 201-224): per weekday of the
requested range, completed and possible cell counts, then a strict-greater
sweep starting from `("N/A", rate 0)` over the entries in insertion order. -/
def remoteMostProductiveDay (habits : List RemoteHabit) (days : List Int) : String :=
  let completedOf : Nat → Nat := fun w =>
    ((days.filter fun d => weekdayIdx d = w).map fun d =>
      remoteDailyCompletions habits d).sum
  let totalOf : Nat → Nat := fun w =>
    (days.countP fun d => weekdayIdx d = w) * habits.length
  let step : String × ℚ → Nat → String × ℚ := fun s w =>
    let rate : ℚ := if 0 < totalOf w then (completedOf w : ℚ) / (totalOf w : ℚ) else 0
    if rate > s.2 then ((fullWeekdayNames.getD w ""), rate) else s
  ((firstOccurrenceOrder (days.map weekdayIdx)).foldl step ("N/A", 0)).1

/-- The remote `useAnalytics` query function (`DateRangePicker.tsx` lines
129-250): an early return of zeros and the `"N/A"` sentinel when the filtered
habit list is empty, otherwise the three aggregates over the requested days. -/
def remoteAnalytics (habits : List RemoteHabit) (days : List Int) : RemoteAnalytics :=
  if habits.isEmpty then
    { bestStreak := 0, completionRate := 0, mostProductiveDay := "N/A" }
  else
    { bestStreak := remoteBestStreak habits days
      completionRate := remoteCompletionRate habits days
      mostProductiveDay := remoteMostProductiveDay habits days }

/-! ### Task store (`TaskList.tsx`, Eisenhower-matrix variant) -/

/-- The `Task` record of `TaskList.tsx`. -/
structure Task where
  id : String
  text : String
  description : Option String
  completed : Bool
  dueDate : Option String
  createdAt : String
deriving DecidableEq, Repr

/-- The `TasksByQuadrant` record: one task list per Eisenhower quadrant. -/
structure TasksByQuadrant where
  urgentImportant : List Task
  notUrgentImportant : List Task
  urgentNotImportant : List Task
  notUrgentNotImportant : List Task
deriving DecidableEq, Repr

/-- The add-task form state (`formData`). -/
structure TaskForm where
  text : String
  description : String
  dueDate : String
deriving DecidableEq, Repr

/-- Function `addTask` of `TaskList.tsx` lines 123-146: reject (no mutation, with the
`toast.error` message as the reported rejection) when the trimmed title is
empty, otherwise append a fresh task to the `not-urgent-not-important`
quadrant.  `id` and `createdAt` stand for `Date.now().toString()` and
`new Date().toISOString()`. -/
def addTask (tasks : TasksByQuadrant) (form : TaskForm) (id createdAt : String) :
    TasksByQuadrant × Option String :=
  if jsTrim form.text = "" then (tasks, some "Task title is required")
  else
    ({ tasks with
       notUrgentNotImportant :=
         tasks.notUrgentNotImportant ++
           [{ id := id
              text := form.text
              description := if form.description = "" then none else some form.description
              completed := false
              dueDate := if form.dueDate = "" then none else some form.dueDate
              createdAt := createdAt }] }, none)

/-- Function `toggleTask` of `TaskList.tsx` lines 184-191, restricted to one quadrant
list: negate `completed` on the task whose id matches. -/
def toggleTaskList (l : List Task) (taskId : String) : List Task :=
  l.map fun t => if t.id = taskId then { t with completed := !t.completed } else t

/-- The persisted local-storage state relevant to tasks: the `tasks-matrix`
blob and the legacy flat `tasks` array, each possibly absent. -/
structure TaskStorage where
  tasksMatrix : Option TasksByQuadrant
  legacyTasks : Option (List Task)
deriving DecidableEq, Repr

/-- The empty matrix used as the initial `useState` value. -/
def emptyMatrix : TasksByQuadrant :=
  { urgentImportant := []
    notUrgentImportant := []
    urgentNotImportant := []
    notUrgentNotImportant := [] }

/-- The load/migration effect of `TaskList.tsx` lines 89-112: use the saved
matrix when present; otherwise, when a legacy flat `tasks` array exists,
relocate it wholesale into the `not-urgent-not-important` quadrant, persist the
migrated matrix, and delete the legacy key.  Returns the resulting component
state and storage. -/
def loadTasks (s : TaskStorage) : TasksByQuadrant × TaskStorage :=
  match s.tasksMatrix with
  | some m => (m, s)
  | none =>
    match s.legacyTasks with
    | some parsed =>
      let migrated : TasksByQuadrant :=
        { urgentImportant := []
          notUrgentImportant := []
          urgentNotImportant := []
          notUrgentNotImportant := parsed }
      (migrated, { tasksMatrix := some migrated, legacyTasks := none })
    | none => (emptyMatrix, s)

/-! ### Habit store: validation and add (`HabitTracker.tsx`, validated variant) -/

/-- The add/edit habit form state (`newHabit` / `editForm` of the validated
`HabitTracker.tsx` variant): every field is populated (numeric fields hold
JavaScript numbers, modelled as integers). -/
structure HabitForm where
  name : String
  frequency : Frequency
  customType : CustomType
  minutesPerDay : Int
  countPerDay : Int
  daysPerWeek : Int
  leavesAllowedPerMonth : Int
  status : Status
deriving DecidableEq, Repr

/-- Issues of `customFrequencySchema` (lines 500-530) applied to the form:
field-range checks, then — only when those pass, as zod runs `.refine` only on
an otherwise-valid object — the custom-type refinement.  (On a fully-populated
form with a positive checked value the refinement never fires, but it is
modelled faithfully.) -/
def customErrors (f : HabitForm) : List (String × String) :=
  let fieldErrs :=
    (if f.daysPerWeek < 1 then [("daysPerWeek", "Must be at least 1 day")] else []) ++
    (if 7 < f.daysPerWeek then [("daysPerWeek", "Cannot exceed 7 days")] else []) ++
    (if f.minutesPerDay < 1 then [("minutesPerDay", "Must be at least 1 minute")] else []) ++
    (if 1440 < f.minutesPerDay then
      [("minutesPerDay", "Cannot exceed 1440 minutes (24 hours)")] else []) ++
    (if f.countPerDay < 1 then [("countPerDay", "Must be at least 1")] else []) ++
    (if 100 < f.countPerDay then [("countPerDay", "Cannot exceed 100")] else [])
  if fieldErrs = [] then
    match f.customType with
    | CustomType.timeBased =>
      if 0 < f.minutesPerDay then []
      else [("customType", "Required field for selected custom type")]
    | CustomType.countBased =>
      if 0 < f.countPerDay then []
      else [("customType", "Required field for selected custom type")]
  else fieldErrs

/-- Call `habitSchema.parse` of lines 487-546, as the field-keyed list of issues of
`validateHabitForm` (lines 615-631): name trimmed, required and at most 50
characters; `leavesAllowedPerMonth` in `[0, 31]`; when the frequency is
`custom`, the issues of `customFrequencySchema`.  (The enum fields and the
integrality checks cannot fail in the typed model.) -/
def validateHabit (f : HabitForm) : List (String × String) :=
  let nameT := jsTrim f.name
  (if nameT.length < 1 then [("name", "Habit name is required")] else []) ++
  (if 50 < nameT.length then
    [("name", "Habit name must be less than 50 characters")] else []) ++
  (if f.leavesAllowedPerMonth < 0 then
    [("leavesAllowedPerMonth", "Cannot be negative")] else []) ++
  (if 31 < f.leavesAllowedPerMonth then
    [("leavesAllowedPerMonth", "Cannot exceed 31 days")] else []) ++
  (if f.frequency = Frequency.custom then customErrors f else [])

/-- The habit built by `addHabit` (lines 639-659) from a validated form: base
fields plus, only under `custom` frequency, the custom-type fields with
`minutesPerDay` and `countPerDay` mutually exclusive by `customType`. -/
def mkHabit (f : HabitForm) (id createdAt : String) : Habit :=
  let base : Habit :=
    { id := id
      name := f.name
      frequency := f.frequency
      customType := none
      minutesPerDay := none
      countPerDay := none
      daysPerWeek := none
      leavesAllowedPerMonth := f.leavesAllowedPerMonth
      status := f.status
      completions := []
      createdAt := createdAt }
  if f.frequency = Frequency.custom then
    { base with
      customType := some f.customType
      daysPerWeek := some f.daysPerWeek
      minutesPerDay :=
        if f.customType = CustomType.timeBased then some f.minutesPerDay else none
      countPerDay :=
        if f.customType = CustomType.countBased then some f.countPerDay else none }
  else base

/-- Function `addHabit` of lines 633-675: when validation fails, report the field-keyed
errors and leave the habit collection untouched; otherwise append the new habit
(with `completions = {}`) and report no errors. -/
def addHabit (habits : List Habit) (f : HabitForm) (id createdAt : String) :
    List Habit × List (String × String) :=
  let errs := validateHabit f
  if errs = [] then (habits ++ [mkHabit f id createdAt], [])
  else (habits, errs)

/-! ### Specification-side definitions

These formalise the wording of the spec's claims, to be compared with the
embedded code above. -/

/-- Length of the maximal run of `true` at the head of a list. -/
def runFrom : List Bool → Nat
  | [] => 0
  | false :: _ => 0
  | true :: l => runFrom l + 1

/-- Length of the longest run of consecutive `true` entries anywhere in a
list: the run starting at the head, or the longest run of the tail. -/
def longestTrueRun : List Bool → Nat
  | [] => 0
  | b :: l => max (runFrom (b :: l)) (longestTrueRun l)

/-- At least one habit completed on day `d` (the day criterion `part_003`
actually applies to both streaks). -/
def anyCompletedOn (habits : List Habit) (d : Int) : Bool :=
  habits.any fun h => completedOn h d

/-- The claim's day criterion for `bestStreak`: the number of habits completed
that day equals the full habit count, a day with zero habits never counting. -/
def allCompletedOn (habits : List Habit) (d : Int) : Bool :=
  !habits.isEmpty && habits.all fun h => completedOn h d

/-- The scanned window of the claims: the trailing 365 days from today, most
recent first, mapped through a day predicate. -/
def scannedWindow (p : Int → Bool) (today : Int) : List Bool :=
  (List.range 365).map fun (i : Nat) => p (today - (i : Int))

/-- Field `bestStreak` as claim C1 words it: the longest run of consecutive
all-habits-completed days within the trailing 365-day window. -/
def claimBestStreakAll (habits : List Habit) (today : Int) : Nat :=
  longestTrueRun (scannedWindow (allCompletedOn habits) today)

/-- Number of completed cells among the weekday-`w` entries of all habits'
completion maps (the declarative reading of the `dayCounts` tally). -/
def specWeekdayCount (habits : List Habit) (w : Nat) : Nat :=
  (habits.map fun h =>
    h.completions.countP fun kv => kv.2 && (weekdayIdx kv.1 == w)).sum

/-- Claim C4's tie rule applied to the same seven entries: the first entry in
canonical Mon..Sun order attaining the maximal count. -/
def claimFirstTiePick : List (String × Nat) → String × Nat
  | [] => ("", 0)
  | x :: rest => rest.foldl (fun a b => if b.2 > a.2 then b else a) x

/-- Completed cells of claim C5: one per `(day, habit)` pair of the range and
snapshot whose completion flag is set. -/
def specCompletedCells (habits : List Habit) (days : List Int) : Nat :=
  ((days.flatMap fun d => habits.map fun h => completedOn h d).filter id).length

/-- The best/temp components of the streak loop, as a fold over the sequence
of day-qualification booleans. -/
def runFold (l : List Bool) (bt : Nat × Nat) : Nat × Nat :=
  l.foldl (fun p b => if b then (p.1, p.2 + 1) else (max p.1 p.2, 0)) bt

/-! ### Concrete instances used by counterexamples and witnesses -/

/-- A habit with the given id and completions and default remaining fields. -/
def exHabit (id : String) (completions : List (Int × Bool)) : Habit :=
  { id := id
    name := "Habit"
    frequency := Frequency.daily
    customType := none
    minutesPerDay := none
    countPerDay := none
    daysPerWeek := none
    leavesAllowedPerMonth := 0
    status := Status.active
    completions := completions
    createdAt := "2024-01-01T00:00:00.000Z" }

/-- Two habits: the first completed today (day 0), the second never. -/
def exPartialPair : List Habit :=
  [exHabit "1" [(0, true)], exHabit "2" []]

/-- One habit completed once on a Monday (day 4 = 1970-01-05) and once on a
Tuesday (day 5). -/
def exMonTue : List Habit :=
  [exHabit "1" [(4, true), (5, true)]]

/-- One habit with an empty completions map. -/
def exFresh : List Habit :=
  [exHabit "1" []]

/-- A habit form whose name is empty. -/
def exEmptyNameForm : HabitForm :=
  { name := ""
    frequency := Frequency.daily
    customType := CustomType.timeBased
    minutesPerDay := 30
    countPerDay := 1
    daysPerWeek := 5
    leavesAllowedPerMonth := 0
    status := Status.active }

/-- A task form whose title is whitespace only. -/
def exBlankTaskForm : TaskForm :=
  { text := " ", description := "", dueDate := "" }

/-- A one-element legacy flat task list. -/
def exLegacyTasks : List Task :=
  [{ id := "7", text := "old", description := none, completed := false,
     dueDate := none, createdAt := "2023-01-01T00:00:00.000Z" }]

/-- Storage holding only the legacy `tasks` key. -/
def exLegacyStorage : TaskStorage :=
  { tasksMatrix := none, legacyTasks := some exLegacyTasks }

/-! ### Lemmas about the JavaScript-object model -/

theorem getKey_setKey_self (l : List (Int × Bool)) (k : Int) (v : Bool) :
    getKey (setKey l k v) k = some v := by
  induction l with
  | nil => simp [setKey, getKey]
  | cons kv rest ih =>
    obtain ⟨k', w⟩ := kv
    by_cases h : k' = k
    · simp [setKey, h, getKey]
    · simp [setKey, h, getKey, ih]

theorem getKey_setKey_ne (l : List (Int × Bool)) (k k' : Int) (v : Bool) (h : k' ≠ k) :
    getKey (setKey l k v) k' = getKey l k' := by
  induction l with
  | nil => simp [setKey, getKey, Ne.symm h]
  | cons kv rest ih =>
    obtain ⟨a, w⟩ := kv
    by_cases ha : a = k
    · subst ha
      simp [setKey, getKey, Ne.symm h]
    · simp [setKey, getKey, ha, ih]

theorem setKey_setKey (l : List (Int × Bool)) (k : Int) (v w : Bool) :
    setKey (setKey l k v) k w = setKey l k w := by
  induction l with
  | nil => simp [setKey]
  | cons kv rest ih =>
    obtain ⟨a, u⟩ := kv
    by_cases ha : a = k
    · simp [setKey, ha]
    · simp [setKey, ha, ih]

theorem setKey_eq_of_getKey (l : List (Int × Bool)) (k : Int) (v : Bool)
    (h : getKey l k = some v) : setKey l k v = l := by
  induction l with
  | nil => simp [getKey] at h
  | cons kv rest ih =>
    obtain ⟨a, u⟩ := kv
    by_cases ha : a = k
    · subst ha
      simp [getKey] at h
      simp [setKey, h]
    · simp [getKey, ha] at h
      simp [setKey, ha, ih h]

theorem mem_keys_setKey (l : List (Int × Bool)) (k : Int) (v : Bool) (a : Int)
    (h : a ∈ l.map Prod.fst) : a ∈ (setKey l k v).map Prod.fst := by
  induction l with
  | nil => simp at h
  | cons kv rest ih =>
    obtain ⟨b, u⟩ := kv
    by_cases hb : b = k
    · simpa [setKey, hb] using h
    · simp only [setKey, if_neg hb, List.map_cons, List.mem_cons] at h ⊢
      rcases h with h | h
      · exact Or.inl h
      · exact Or.inr (ih h)

/-! ### Claim C9: toggle frame conditions -/

/-- C9.  `toggleCompletion` changes at most the habit whose id matches: list
length and every other habit record are unchanged, and within the matched
habit only the `completions` entry for today's date changes — every other
field and every other date entry is preserved.  The `date` argument is
ignored entirely, so the entry toggled is always today's. -/
theorem toggleCompletion_frame (habits : List Habit) (today : Int) (id : String)
    (date : Int) (i : Nat) (hi : i < habits.length) :
    (toggleCompletion habits today id date).length = habits.length ∧
    (∀ d : Int, toggleCompletion habits today id d = toggleHabit habits today id) ∧
    (habits[i].id ≠ id →
      (toggleCompletion habits today id date)[i]? = some habits[i]) ∧
    (habits[i].id = id →
      ∃ h', (toggleCompletion habits today id date)[i]? = some h' ∧
        h'.id = habits[i].id ∧
        h'.name = habits[i].name ∧
        h'.frequency = habits[i].frequency ∧
        h'.customType = habits[i].customType ∧
        h'.minutesPerDay = habits[i].minutesPerDay ∧
        h'.countPerDay = habits[i].countPerDay ∧
        h'.daysPerWeek = habits[i].daysPerWeek ∧
        h'.leavesAllowedPerMonth = habits[i].leavesAllowedPerMonth ∧
        h'.status = habits[i].status ∧
        h'.createdAt = habits[i].createdAt ∧
        (∀ d : Int, d ≠ today →
          getKey h'.completions d = getKey habits[i].completions d) ∧
        getKey h'.completions today =
          some (!(getKey habits[i].completions today).getD false)) := by
  have hmap : (toggleCompletion habits today id date)[i]? =
      some (toggleOne today id habits[i]) := by
    simp [toggleCompletion, toggleHabit, List.getElem?_eq_getElem hi]
  refine ⟨by simp [toggleCompletion, toggleHabit], fun d => rfl, ?_, ?_⟩
  · intro hne
    rw [hmap, toggleOne, if_neg hne]
  · intro heq
    refine ⟨toggleOne today id habits[i], hmap, ?_⟩
    rw [toggleOne, if_pos heq]
    refine ⟨rfl, rfl, rfl, rfl, rfl, rfl, rfl, rfl, rfl, rfl, ?_, ?_⟩
    · intro d hd
      exact getKey_setKey_ne _ _ _ _ hd
    · exact getKey_setKey_self _ _ _

/-- Witness for C9 at a concrete store: the second habit ("2") does not match
the toggled id "1", so position 1 is untouched, and position 0 keeps its name. -/
theorem toggleCompletion_frame_witness :
    (toggleCompletion exPartialPair 0 "1" 5).length = exPartialPair.length ∧
    (toggleCompletion exPartialPair 0 "1" 5)[1]? = some exPartialPair[1] ∧
    ∃ h', (toggleCompletion exPartialPair 0 "1" 5)[0]? = some h' ∧
      h'.name = exPartialPair[0].name := by
  have hframe0 := toggleCompletion_frame exPartialPair 0 "1" 5 0 (by decide)
  have hframe1 := toggleCompletion_frame exPartialPair 0 "1" 5 1 (by decide)
  refine ⟨hframe0.1, hframe1.2.2.1 (by decide), ?_⟩
  obtain ⟨h', hh, -, hname, -⟩ := hframe0.2.2.2 (by decide)
  exact ⟨h', hh, hname⟩

/-! ### Claim C3: future-date toggles -/

/-- C3 counterexample.  The claim says a toggle with tomorrow's date (today is
day 0, the date passed is day 1) is rejected with no mutation; in fact the
habit collection changes, because the date argument is dropped and today's
entry is flipped. -/
theorem toggleCompletion_future_mutates :
    toggleCompletion exFresh 0 "1" 1 ≠ exFresh := by
  decide

/-- C3 amended.  A toggle with a date strictly after today is neither rejected
nor reported: the date argument is ignored, the call behaves exactly like a
toggle of today, and in particular no completions entry for the future date
itself is created or changed in any habit. -/
theorem toggleCompletion_future_date_ignored (habits : List Habit) (today : Int)
    (id : String) (date : Int) (hfut : today < date) :
    toggleCompletion habits today id date = toggleHabit habits today id ∧
    ∀ i : Nat, (toggleCompletion habits today id date)[i]?.map
        (fun h => getKey h.completions date) =
      habits[i]?.map (fun h => getKey h.completions date) := by
  refine ⟨rfl, fun i => ?_⟩
  simp only [toggleCompletion, toggleHabit, List.getElem?_map, Option.map_map]
  cases hx : habits[i]? with
  | none => rfl
  | some h =>
    by_cases hid : h.id = id
    · simp [toggleOne, if_pos hid, getKey_setKey_ne _ _ _ _ (by omega : date ≠ today)]
    · simp [toggleOne, if_neg hid]

/-- Witness for C3 (amended) with today = 0 and the future date 1. -/
theorem toggleCompletion_future_date_ignored_witness :
    toggleCompletion exFresh 0 "1" 1 = toggleHabit exFresh 0 "1" ∧
    (toggleCompletion exFresh 0 "1" 1)[0]?.map (fun h => getKey h.completions 1) =
      exFresh[0]?.map (fun h => getKey h.completions 1) := by
  have h := toggleCompletion_future_date_ignored exFresh 0 "1" 1 (by decide)
  exact ⟨h.1, h.2 0⟩

/-! ### Claim C6: double toggle -/

/-- C6 counterexample.  Toggling a habit whose completions map has no entry
for today twice does not restore the map: a previously-absent key is left
behind as an explicit `false` entry, so the store differs from the original. -/
theorem toggle_twice_not_identity :
    toggleHabit (toggleHabit exFresh 0 "1") 0 "1" ≠ exFresh := by
  decide

/-- C6 amended.  Toggling the same habit twice restores the effective
completion status of every habit and date (reading an absent key as `false`),
and restores the store exactly whenever every matched habit already had an
entry for today; when today's key was absent, the double toggle leaves an
explicit `false` entry for it instead of the key's absence. -/
theorem toggle_twice_roundtrip (habits : List Habit) (today : Int) (id : String) :
    ((∀ h ∈ habits, h.id = id → (getKey h.completions today).isSome = true) →
      toggleHabit (toggleHabit habits today id) today id = habits) ∧
    ∀ i : Nat, ∀ d : Int,
      (toggleHabit (toggleHabit habits today id) today id)[i]?.map
          (fun h => (getKey h.completions d).getD false) =
        habits[i]?.map (fun h => (getKey h.completions d).getD false) := by
  have hone : ∀ h : Habit, toggleOne today id (toggleOne today id h) =
      if h.id = id then
        { h with completions :=
            setKey h.completions today ((getKey h.completions today).getD false) }
      else h := by
    intro h
    by_cases hid : h.id = id
    · simp [toggleOne, if_pos hid, getKey_setKey_self, setKey_setKey]
    · simp [toggleOne, if_neg hid]
  constructor
  · intro hpresent
    simp only [toggleHabit, List.map_map]
    have : ∀ h ∈ habits, (toggleOne today id ∘ toggleOne today id) h = h := by
      intro h hmem
      simp only [Function.comp_apply, hone]
      by_cases hid : h.id = id
      · rw [if_pos hid]
        obtain ⟨v, hv⟩ := Option.isSome_iff_exists.mp (hpresent h hmem hid)
        have : (getKey h.completions today).getD false = v := by rw [hv]; rfl
        rw [this, setKey_eq_of_getKey _ _ _ hv]
      · rw [if_neg hid]
    exact (List.map_congr_left this).trans (List.map_id habits)
  · intro i d
    simp only [toggleHabit, List.map_map, List.getElem?_map]
    cases hx : habits[i]? with
    | none => rfl
    | some h =>
      by_cases hid : h.id = id
      · by_cases hd : d = today
        · subst hd
          simp [hone, if_pos hid, getKey_setKey_self]
        · simp [hone, if_pos hid, getKey_setKey_ne _ _ _ _ hd]
      · simp [hone, if_neg hid]

/-- Witness for C6 (amended): a habit whose today entry is present (`true` at
day 0) is restored exactly by a double toggle. -/
theorem toggle_twice_roundtrip_witness :
    toggleHabit (toggleHabit [exHabit "1" [(0, true)]] 0 "1") 0 "1" =
      [exHabit "1" [(0, true)]] ∧
    (toggleHabit (toggleHabit exFresh 0 "1") 0 "1")[0]?.map
        (fun h => (getKey h.completions 0).getD false) =
      exFresh[0]?.map (fun h => (getKey h.completions 0).getD false) := by
  have h1 := toggle_twice_roundtrip [exHabit "1" [(0, true)]] 0 "1"
  have h2 := toggle_twice_roundtrip exFresh 0 "1"
  exact ⟨h1.1 (by decide), h2.2 0 0⟩

/-! ### Claim C10: completion keys never disappear -/

/-- C10.  A habit is created with an empty completions map; a toggle can only
extend a habit's key set (updating in place or appending today), never remove
a key; and toggling a date currently `true` stores an explicit `false` for it
rather than deleting the entry. -/
theorem completions_keys_monotone (habits : List Habit) (today : Int) (id : String)
    (f : HabitForm) (idStr ca : String) (i : Nat) (hi : i < habits.length) :
    (mkHabit f idStr ca).completions = [] ∧
    ∃ h', (toggleHabit habits today id)[i]? = some h' ∧
      (∀ k : Int, k ∈ habits[i].completions.map Prod.fst →
        k ∈ h'.completions.map Prod.fst) ∧
      (habits[i].id = id → getKey habits[i].completions today = some true →
        getKey h'.completions today = some false) := by
  refine ⟨?_, toggleOne today id habits[i], ?_, ?_, ?_⟩
  · rw [mkHabit]
    split <;> rfl
  · simp [toggleHabit, List.getElem?_eq_getElem hi]
  · intro k hk
    rw [toggleOne]
    split
    · exact mem_keys_setKey _ _ _ _ hk
    · exact hk
  · intro hid htrue
    rw [toggleOne, if_pos hid]
    show getKey (setKey habits[i].completions today
      (!(getKey habits[i].completions today).getD false)) today = some false
    rw [htrue]
    simpa using getKey_setKey_self habits[i].completions today false

/-- Witness for C10: habit "1" has `true` at day 0; after the toggle the key
is still present with an explicit `false`. -/
theorem completions_keys_monotone_witness :
    (mkHabit exEmptyNameForm "9" "t").completions = [] ∧
    ∃ h', (toggleHabit [exHabit "1" [(0, true)]] 0 "1")[0]? = some h' ∧
      (0 : Int) ∈ h'.completions.map Prod.fst ∧
      getKey h'.completions 0 = some false := by
  have h := completions_keys_monotone [exHabit "1" [(0, true)]] 0 "1"
    exEmptyNameForm "9" "t" 0 (by decide)
  obtain ⟨hmk, h', hsome, hkeys, hflip⟩ := h
  exact ⟨hmk, h', hsome, hkeys 0 (by decide), hflip (by decide) (by decide)⟩

/-! ### Claim C7: validation failures reject without mutation -/

/-- C7.  An add whose input fails validation mutates nothing and reports the
failure: a habit form whose trimmed name is empty or longer than 50 characters
leaves the habit collection unchanged and yields a `name`-keyed error message,
and a task form whose trimmed title is empty leaves the task matrix unchanged
and yields the rejection message. -/
theorem invalid_add_rejected (habits : List Habit) (f : HabitForm) (idStr ca : String)
    (tasks : TasksByQuadrant) (tf : TaskForm) (tid tca : String) :
    ((jsTrim f.name = "" ∨ 50 < (jsTrim f.name).length) →
      (addHabit habits f idStr ca).1 = habits ∧
      ∃ msg, ("name", msg) ∈ (addHabit habits f idStr ca).2) ∧
    (jsTrim tf.text = "" → addTask tasks tf tid tca = (tasks, some "Task title is required")) := by
  constructor
  · intro hbad
    have hmem : ∃ msg, ("name", msg) ∈ validateHabit f := by
      rcases hbad with hempty | hlong
      · refine ⟨"Habit name is required", ?_⟩
        simp [validateHabit, hempty]
      · refine ⟨"Habit name must be less than 50 characters", ?_⟩
        have h1 : ¬ (jsTrim f.name).length < 1 := by omega
        simp [validateHabit, h1, hlong]
    obtain ⟨msg, hmem⟩ := hmem
    have hne : ¬ validateHabit f = [] := List.ne_nil_of_mem hmem
    rw [addHabit]
    refine ⟨?_, msg, ?_⟩ <;> simp [hne, hmem]
  · intro hblank
    rw [addTask, if_pos hblank]

/-- Witness for C7: an empty habit name and a whitespace task title. -/
theorem invalid_add_rejected_witness :
    ((addHabit [] exEmptyNameForm "1" "t").1 = [] ∧
      ∃ msg, ("name", msg) ∈ (addHabit [] exEmptyNameForm "1" "t").2) ∧
    addTask emptyMatrix exBlankTaskForm "1" "t" =
      (emptyMatrix, some "Task title is required") := by
  have h := invalid_add_rejected [] exEmptyNameForm "1" "t" emptyMatrix exBlankTaskForm "1" "t"
  exact ⟨h.1 (Or.inl (by decide)), h.2 (by decide)⟩

/-! ### Claim C8: legacy task migration -/

/-- C8.  When the `tasks-matrix` key is absent and a legacy flat `tasks` array
is present, the one-time migration puts every legacy task, in order, into the
`not-urgent-not-important` quadrant, leaves the other three quadrants empty,
persists the migrated matrix, and deletes the legacy key. -/
theorem legacy_tasks_migration (s : TaskStorage) (l : List Task)
    (hm : s.tasksMatrix = none) (hl : s.legacyTasks = some l) :
    loadTasks s =
      ({ urgentImportant := []
         notUrgentImportant := []
         urgentNotImportant := []
         notUrgentNotImportant := l },
       { tasksMatrix := some
           { urgentImportant := []
             notUrgentImportant := []
             urgentNotImportant := []
             notUrgentNotImportant := l }
         legacyTasks := none }) := by
  rw [loadTasks, hm, hl]

/-- Witness for C8 on a one-task legacy store. -/
theorem legacy_tasks_migration_witness :
    loadTasks exLegacyStorage =
      ({ urgentImportant := []
         notUrgentImportant := []
         urgentNotImportant := []
         notUrgentNotImportant := exLegacyTasks },
       { tasksMatrix := some
           { urgentImportant := []
             notUrgentImportant := []
             urgentNotImportant := []
             notUrgentNotImportant := exLegacyTasks }
         legacyTasks := none }) :=
  legacy_tasks_migration exLegacyStorage exLegacyTasks (by decide) (by decide)

/-! ### Claim C5: completion rate -/

theorem totals003_inner (habits : List Habit) (d : Int) (acc : Nat × Nat) :
    habits.foldl
        (fun acc2 h => (acc2.1 + 1, acc2.2 + if completedOn h d then 1 else 0)) acc =
      (acc.1 + habits.length, acc.2 + habits.countP fun h => completedOn h d) := by
  induction habits generalizing acc with
  | nil => simp
  | cons h t ih =>
    rw [List.foldl_cons, ih]
    cases hc : completedOn h d <;>
      simp [List.countP_cons, hc, Prod.ext_iff] <;> omega

theorem totals003_fold (habits : List Habit) (days : List Int) (acc : Nat × Nat) :
    days.foldl
        (fun acc day => habits.foldl
          (fun acc2 h => (acc2.1 + 1, acc2.2 + if completedOn h day then 1 else 0)) acc)
        acc =
      (acc.1 + days.length * habits.length,
       acc.2 + (days.map fun d => habits.countP fun h => completedOn h d).sum) := by
  induction days generalizing acc with
  | nil => simp
  | cons d t ih =>
    rw [List.foldl_cons, totals003_inner, ih]
    simp [Prod.ext_iff, Nat.succ_mul]
    constructor <;> omega

theorem totals003_spec (habits : List Habit) (days : List Int) :
    totals003 habits days =
      (days.length * habits.length,
       (days.map fun d => habits.countP fun h => completedOn h d).sum) := by
  rw [totals003, totals003_fold]
  simp

theorem specCompletedCells_eq (habits : List Habit) (days : List Int) :
    specCompletedCells habits days =
      (days.map fun d => habits.countP fun h => completedOn h d).sum := by
  rw [specCompletedCells]
  induction days with
  | nil => rfl
  | cons d t ih =>
    simp only [List.flatMap_cons, List.filter_append, List.length_append,
      List.map_cons, List.sum_cons, ih]
    congr 1
    rw [← List.countP_eq_length_filter, List.countP_map]
    rfl

/-- C5.  The completion rate over an inclusive range equals
`round(100 * totalCompletedCells / totalPossibleCells)` with a cell per
(habit, day) pair of range and snapshot, is 0 when there are no cells, and in
particular is 0 for an empty snapshot; no division by zero is involved. -/
theorem completionRate_spec (habits : List Habit) (start stop : Int) :
    completionRate003 habits (eachDayOfInterval start stop) =
      (if (eachDayOfInterval start stop).length * habits.length = 0 then 0
       else jsRound ((100 * (specCompletedCells habits (eachDayOfInterval start stop) : ℚ)) /
         (((eachDayOfInterval start stop).length * habits.length : Nat) : ℚ))) ∧
    (habits = [] → completionRate003 habits (eachDayOfInterval start stop) = 0) := by
  have hrate : ∀ hs : List Habit,
      completionRate003 hs (eachDayOfInterval start stop) =
        (if (eachDayOfInterval start stop).length * hs.length = 0 then 0
         else jsRound ((100 * (specCompletedCells hs (eachDayOfInterval start stop) : ℚ)) /
           (((eachDayOfInterval start stop).length * hs.length : Nat) : ℚ))) := by
    intro hs
    rw [completionRate003, totals003_spec, specCompletedCells_eq]
    by_cases hp : (eachDayOfInterval start stop).length * hs.length = 0
    · simp [hp]
    · have hpos : 0 < (eachDayOfInterval start stop).length * hs.length := by omega
      simp only [hpos, if_pos, if_neg hp]
      congr 1
      have hq : ((eachDayOfInterval start stop).length * hs.length : ℚ) ≠ 0 := by
        exact_mod_cast hp
      push_cast
      field_simp
      ring
  refine ⟨hrate habits, fun hempty => ?_⟩
  subst hempty
  rw [hrate []]
  simp

/-! ### Claim C1: best streak -/

theorem runFrom_le_longestTrueRun (l : List Bool) : runFrom l ≤ longestTrueRun l := by
  cases l with
  | nil => exact Nat.le_refl 0
  | cons b t =>
    rw [longestTrueRun]
    exact le_max_left _ _

theorem runFold_cons (x : Bool) (xs : List Bool) (p : Nat × Nat) :
    runFold (x :: xs) p = runFold xs (if x then (p.1, p.2 + 1) else (max p.1 p.2, 0)) := by
  rw [runFold, List.foldl_cons, runFold]

theorem runFold_spec (l : List Bool) (b t : Nat) :
    max (runFold l (b, t)).1 (runFold l (b, t)).2 =
      max b (max (t + runFrom l) (longestTrueRun l)) := by
  induction l generalizing b t with
  | nil => simp [runFold, runFrom, longestTrueRun]
  | cons x xs ih =>
    have hle := runFrom_le_longestTrueRun xs
    cases x
    · rw [runFold_cons]
      simp only [Bool.false_eq_true, if_false, ih, runFrom, longestTrueRun]
      omega
    · rw [runFold_cons]
      simp only [if_true, ih, runFrom, longestTrueRun]
      omega

theorem streaks_proj (habits : List Habit) (today : Int) (l : List Nat) (s : StreakState) :
    ((l.foldl (streakStep habits today) s).best,
     (l.foldl (streakStep habits today) s).temp) =
      runFold (l.map fun (i : Nat) => anyCompletedOn habits (today - (i : Int))) (s.best, s.temp) := by
  induction l generalizing s with
  | nil => rfl
  | cons i t ih =>
    rw [List.foldl_cons, List.map_cons, runFold_cons, ih]
    congr 1
    cases hany : habits.any fun h => completedOn h (today - (i : Int))
    · have h2 : anyCompletedOn habits (today - (i : Int)) = false := hany
      rw [h2]
      simp [streakStep, hany]
    · have h2 : anyCompletedOn habits (today - (i : Int)) = true := hany
      rw [h2]
      simp [streakStep, hany]

/-- C1 amended.  Within the trailing-365-day window from today (independent of
the requested range), `bestStreak` is the length of the longest run of
consecutive days on which at least one habit was completed — not of days on
which every habit was completed.  A day with zero habits still never counts,
since no habit is completed then. -/
theorem bestStreak_longest_any_run (habits : List Habit) (today : Int) :
    bestStreak003 habits today =
      longestTrueRun (scannedWindow (anyCompletedOn habits) today) := by
  rw [bestStreak003, streaks003]
  have hproj := streaks_proj habits today (List.range 365) ⟨0, 0, 0⟩
  have hb := congrArg Prod.fst hproj
  have ht := congrArg Prod.snd hproj
  simp only at hb ht
  rw [hb, ht]
  have hspec := runFold_spec
    ((List.range 365).map fun (i : Nat) => anyCompletedOn habits (today - (i : Int))) 0 0
  have hle := runFrom_le_longestTrueRun
    ((List.range 365).map fun (i : Nat) => anyCompletedOn habits (today - (i : Int)))
  rw [show scannedWindow (anyCompletedOn habits) today =
    (List.range 365).map fun (i : Nat) => anyCompletedOn habits (today - (i : Int)) from rfl]
  omega

set_option maxRecDepth 100000 in
/-- C1 counterexample.  With habit "1" completed today (day 0) and habit "2"
never completed, the code's best streak is 1, while the claim's
all-habits-completed longest run over the same window is 0. -/
theorem bestStreak_all_criterion_counterexample :
    bestStreak003 exPartialPair 0 = 1 ∧ claimBestStreakAll exPartialPair 0 = 0 := by
  constructor <;> decide

/-! ### Claim C2: zero-habit snapshots -/

theorem foldl_fixed {α β : Type} (f : α → β → α) (a : α) (h : ∀ b, f a b = a) :
    ∀ l : List β, l.foldl f a = a := by
  intro l
  induction l with
  | nil => rfl
  | cons x t ih => rw [List.foldl_cons, h, ih]

theorem streaks003_nil (today : Int) : streaks003 [] today = ⟨0, 0, 0⟩ := by
  rw [streaks003]
  exact foldl_fixed _ _ (fun i => by simp [streakStep]) _

theorem completionRate003_nil (days : List Int) : completionRate003 [] days = 0 := by
  rw [completionRate003, totals003_spec]
  simp

set_option maxRecDepth 2000 in
/-- C2 counterexample.  On a zero-habit snapshot the local-storage aggregator
resolves `mostProductiveDay` to `"Sun"` — the all-zero tally tie falls through
to the last weekday entry — not to the claimed `"N/A"` sentinel. -/
theorem zero_habits_not_na :
    (analytics003 [] (eachDayOfInterval 0 6) 0).mostProductiveDay ≠ "N/A" := by
  decide

/-- C2 amended.  On a zero-habit snapshot, for every requested range, the
local-storage aggregator returns `completionRate = 0`, `currentStreak = 0` and
`bestStreak = 0` and evaluates totally (it cannot throw), but its
`mostProductiveDay` is `"Sun"` (its tie-breaking reduce keeps the later of two
tied weekday entries, so the all-zero tally falls through to the last key),
while the remote variant's early return produces the `"N/A"` sentinel together
with zero rate and streak. -/
theorem zero_habits_analytics (days : List Int) (today : Int) (rdays : List Int) :
    analytics003 [] days today =
      { completionRate := 0, currentStreak := 0, bestStreak := 0,
        mostProductiveDay := "Sun", totalHabits := 0 } ∧
    remoteAnalytics [] rdays =
      { bestStreak := 0, completionRate := 0, mostProductiveDay := "N/A" } := by
  constructor
  · have hmpd : mostProductiveDay003 [] = "Sun" := by decide
    simp [analytics003, completionRate003_nil, currentStreak003, bestStreak003,
      streaks003_nil, hmpd]
  · rfl

/-! ### Claim C4: most productive day -/

theorem weekdayIdx_lt (d : Int) : weekdayIdx d < 7 := by
  rw [weekdayIdx]
  have h1 : 0 ≤ (d + 3) % 7 := Int.emod_nonneg _ (by norm_num)
  have h2 : (d + 3) % 7 < 7 := Int.emod_lt_of_pos _ (by norm_num)
  omega

theorem length_bump (cs : List Nat) (i : Nat) : (bump cs i).length = cs.length := by
  simp [bump]

theorem getD_bump (cs : List Nat) (i j : Nat) (hi : i < cs.length) :
    (bump cs i).getD j 0 = cs.getD j 0 + if i = j then 1 else 0 := by
  by_cases hij : i = j
  · subst hij
    rw [if_pos rfl, bump, List.getD_eq_getElem?_getD, List.getElem?_set_self hi,
      Option.getD_some, List.getD_eq_getElem?_getD, List.getElem?_eq_getElem hi,
      Option.getD_some]
  · rw [if_neg hij, bump, List.getD_eq_getElem?_getD, List.getElem?_set_ne hij,
      ← List.getD_eq_getElem?_getD]
    omega

theorem dayCounts_inner (l : List (Int × Bool)) (cs : List Nat) (h7 : cs.length = 7) :
    (l.foldl (fun cs2 kv => if kv.2 then bump cs2 (weekdayIdx kv.1) else cs2) cs).length = 7 ∧
    ∀ j, j < 7 →
      (l.foldl (fun cs2 kv => if kv.2 then bump cs2 (weekdayIdx kv.1) else cs2) cs).getD j 0 =
        cs.getD j 0 + l.countP fun kv => kv.2 && (weekdayIdx kv.1 == j) := by
  induction l generalizing cs with
  | nil => simp [h7]
  | cons kv t ih =>
    rw [List.foldl_cons]
    cases hv : kv.2
    · rw [if_neg (by simp [hv])]
      obtain ⟨hl, hg⟩ := ih cs h7
      refine ⟨hl, fun j hj => ?_⟩
      rw [hg j hj, List.countP_cons]
      simp [hv]
    · rw [if_pos (by simp [hv])]
      have hb7 : (bump cs (weekdayIdx kv.1)).length = 7 := by rw [length_bump, h7]
      obtain ⟨hl, hg⟩ := ih (bump cs (weekdayIdx kv.1)) hb7
      refine ⟨hl, fun j hj => ?_⟩
      rw [hg j hj, getD_bump _ _ _ (by rw [h7]; exact weekdayIdx_lt _), List.countP_cons]
      by_cases hj' : weekdayIdx kv.1 = j <;> simp [hv, hj'] <;> omega

theorem dayCounts_spec (habits : List Habit) :
    (dayCounts habits).length = 7 ∧
    ∀ j, j < 7 → (dayCounts habits).getD j 0 = specWeekdayCount habits j := by
  rw [dayCounts]
  have main : ∀ (hs : List Habit) (cs : List Nat), cs.length = 7 →
      (hs.foldl (fun cs h => h.completions.foldl
        (fun cs2 kv => if kv.2 then bump cs2 (weekdayIdx kv.1) else cs2) cs) cs).length = 7 ∧
      ∀ j, j < 7 →
        (hs.foldl (fun cs h => h.completions.foldl
          (fun cs2 kv => if kv.2 then bump cs2 (weekdayIdx kv.1) else cs2) cs) cs).getD j 0 =
          cs.getD j 0 + (hs.map fun h =>
            h.completions.countP fun kv => kv.2 && (weekdayIdx kv.1 == j)).sum := by
    intro hs
    induction hs with
    | nil => intro cs h7; simp [h7]
    | cons h t ih =>
      intro cs h7
      rw [List.foldl_cons]
      obtain ⟨hil, hig⟩ := dayCounts_inner h.completions cs h7
      obtain ⟨hl, hg⟩ := ih _ hil
      refine ⟨hl, fun j hj => ?_⟩
      rw [hg j hj, hig j hj]
      simp [Nat.add_assoc]
  obtain ⟨hl, hg⟩ := main habits (List.replicate 7 0) (by simp)
  refine ⟨hl, fun j hj => ?_⟩
  have hrep : (List.replicate 7 (0 : Nat)).getD j 0 = 0 := by
    rw [List.getD_eq_getElem?_getD, List.getElem?_replicate]
    simp [hj]
  rw [hg j hj, hrep, specWeekdayCount]
  omega

theorem foldl_pick_last_argmax (x : String × Nat) (rest : List (String × Nat)) :
    ∃ pre post,
      x :: rest = pre ++ (rest.foldl (fun a b => if a.2 > b.2 then a else b) x) :: post ∧
      (∀ y ∈ x :: rest, y.2 ≤ (rest.foldl (fun a b => if a.2 > b.2 then a else b) x).2) ∧
      (∀ y ∈ post, y.2 < (rest.foldl (fun a b => if a.2 > b.2 then a else b) x).2) := by
  induction rest generalizing x with
  | nil =>
    refine ⟨[], [], rfl, ?_, by simp⟩
    intro y hy
    rcases List.mem_cons.mp hy with hy | hy
    · rw [hy]
      exact Nat.le_refl _
    · simp at hy
  | cons b t ih =>
    rw [List.foldl_cons]
    by_cases hxb : x.2 > b.2
    · rw [if_pos hxb]
      obtain ⟨pre, post, heq, hmax, hlt⟩ := ih x
      cases pre with
      | nil =>
        simp only [List.nil_append] at heq
        injection heq with h1 h2
        refine ⟨[], b :: t, ?_, ?_, ?_⟩
        · rw [← h1]
          rfl
        · intro y hy
          rcases List.mem_cons.mp hy with hy | hy
          · rw [hy]
            exact hmax x (by simp)
          · rcases List.mem_cons.mp hy with hy | hy
            · rw [hy, ← h1]
              omega
            · exact hmax y (by simp [hy])
        · intro y hy
          rcases List.mem_cons.mp hy with hy | hy
          · rw [hy, ← h1]
            omega
          · rw [h2] at hy
            exact hlt y hy
      | cons p pre₂ =>
        simp only [List.cons_append] at heq
        injection heq with h1 h2
        refine ⟨x :: b :: pre₂, post, ?_, ?_, ?_⟩
        · simp only [List.cons_append]
          rw [← h2]
        · intro y hy
          rcases List.mem_cons.mp hy with hy | hy
          · rw [hy]
            exact hmax x (by simp)
          · rcases List.mem_cons.mp hy with hy | hy
            · rw [hy]
              have hx := hmax x (by simp)
              omega
            · exact hmax y (by simp [hy])
        · exact hlt
    · rw [if_neg hxb]
      obtain ⟨pre, post, heq, hmax, hlt⟩ := ih b
      refine ⟨x :: pre, post, ?_, ?_, ?_⟩
      · rw [List.cons_append, ← heq]
      · intro y hy
        rcases List.mem_cons.mp hy with hy | hy
        · rw [hy]
          have hb := hmax b (by simp)
          omega
        · exact hmax y hy
      · exact hlt

/-- C4 amended.  `mostProductiveDay` is the weekday whose raw count of
completed completion-map entries, aggregated over every date key of every
habit (all time, with no windowing by the requested range), is highest; when
weekdays tie for the highest count the result is the weekday encountered
last — not first — in the fixed Mon..Sun entry order. -/
theorem mostProductiveDay_last_argmax (habits : List Habit) :
    ((dayCounts habits).length = 7 ∧
      ∀ j, j < 7 → (dayCounts habits).getD j 0 = specWeekdayCount habits j) ∧
    ∃ pre post,
      mpdEntries habits = pre ++ (reducePick (mpdEntries habits)) :: post ∧
      (∀ y ∈ mpdEntries habits, y.2 ≤ (reducePick (mpdEntries habits)).2) ∧
      (∀ y ∈ post, y.2 < (reducePick (mpdEntries habits)).2) ∧
      mostProductiveDay003 habits = (reducePick (mpdEntries habits)).1 := by
  refine ⟨dayCounts_spec habits, ?_⟩
  have hlen : (mpdEntries habits).length = 7 := by
    rw [mpdEntries, List.length_zip, (dayCounts_spec habits).1]
    rfl
  obtain ⟨x, rest, hme⟩ : ∃ x rest, mpdEntries habits = x :: rest := by
    cases hq : mpdEntries habits with
    | nil => rw [hq] at hlen; simp at hlen
    | cons a b => exact ⟨a, b, rfl⟩
  have hreduce : reducePick (mpdEntries habits) =
      rest.foldl (fun a b => if a.2 > b.2 then a else b) x := by
    rw [hme, reducePick]
  obtain ⟨pre, post, heq, hmax, hlt⟩ := foldl_pick_last_argmax x rest
  refine ⟨pre, post, ?_, ?_, ?_, rfl⟩
  · rw [hreduce, hme]
    exact heq
  · rw [hreduce, hme]
    exact hmax
  · rw [hreduce]
    exact hlt

/-- C4 counterexample.  A habit completed exactly once on a Monday (day 4) and
once on a Tuesday (day 5) ties Mon and Tue at count 1: the code resolves the
tie to `"Tue"`, whereas the claim's canonical-first rule picks `"Mon"`. -/
theorem mostProductiveDay_tie_counterexample :
    mostProductiveDay003 exMonTue = "Tue" ∧
    (claimFirstTiePick (mpdEntries exMonTue)).1 = "Mon" := by
  constructor <;> decide

/-! ### Remaining witnesses at concrete inputs -/

/-- Witness for C1 (amended) at a concrete snapshot. -/
theorem bestStreak_longest_any_run_witness :
    bestStreak003 exPartialPair 0 =
      longestTrueRun (scannedWindow (anyCompletedOn exPartialPair) 0) :=
  bestStreak_longest_any_run exPartialPair 0

/-- Witness for C2 (amended) at concrete ranges. -/
theorem zero_habits_analytics_witness :
    analytics003 [] (eachDayOfInterval 0 6) 0 =
      { completionRate := 0, currentStreak := 0, bestStreak := 0,
        mostProductiveDay := "Sun", totalHabits := 0 } ∧
    remoteAnalytics [] (eachDayOfInterval 0 6) =
      { bestStreak := 0, completionRate := 0, mostProductiveDay := "N/A" } :=
  zero_habits_analytics (eachDayOfInterval 0 6) 0 (eachDayOfInterval 0 6)

/-- Witness for C4 (amended) at a concrete snapshot. -/
theorem mostProductiveDay_last_argmax_witness :
    (dayCounts exMonTue).length = 7 ∧
    mostProductiveDay003 exMonTue = (reducePick (mpdEntries exMonTue)).1 := by
  have h := mostProductiveDay_last_argmax exMonTue
  obtain ⟨⟨hlen, -⟩, -, -, -, -, -, hname⟩ := h
  exact ⟨hlen, hname⟩

/-- Witness for C5 at a concrete snapshot and range (including the empty
snapshot case). -/
theorem completionRate_spec_witness :
    completionRate003 exPartialPair (eachDayOfInterval 0 6) =
      (if (eachDayOfInterval 0 6).length * exPartialPair.length = 0 then 0
       else jsRound ((100 * (specCompletedCells exPartialPair (eachDayOfInterval 0 6) : ℚ)) /
         (((eachDayOfInterval 0 6).length * exPartialPair.length : Nat) : ℚ))) ∧
    completionRate003 [] (eachDayOfInterval 0 6) = 0 :=
  ⟨(completionRate_spec exPartialPair 0 6).1, (completionRate_spec [] 0 6).2 rfl⟩

end ProdTracker
